import Mathlib

/-!
Shallow embedding of the `replacer` find/replace utility (Rust sources under `src/`):
the size parser (`src/replacer/util.rs`, duplicated as `Cli::parse_size` in
`src/main.rs`), the scan buffer (`src/replacer/scan_buffer.rs`), and the CLI
orchestration (`src/main.rs`).  The external regex engine (the `regex` crate) is not
part of this repository; where its behaviour is needed it is modelled from the spec.
-/

namespace Replacer

/-- The unified error type from `src/replacer/error.rs`: a single message string. -/
structure CliError where
  msg : String
deriving DecidableEq, Repr

/-- Magnitude table built by `parse_size` (`src/replacer/util.rs` lines 54-60, identical
in `src/main.rs`).  The Rust source writes `1024 ^ n`, which in Rust is bitwise XOR,
not exponentiation, so the stored values are 1024, 1025, 1026, 1027, 1028, 1029. -/
def magnitude_map : List (String × Int) :=
  [("", Int.ofNat (Nat.xor 1024 0)),
   ("KiB", Int.ofNat (Nat.xor 1024 1)),
   ("MiB", Int.ofNat (Nat.xor 1024 2)),
   ("GiB", Int.ofNat (Nat.xor 1024 3)),
   ("TiB", Int.ofNat (Nat.xor 1024 4)),
   ("PiB", Int.ofNat (Nat.xor 1024 5))]

/-- Numeric value of a digit string (most significant digit first). -/
def digitsVal (l : List Char) : Nat :=
  l.foldl (fun a c => a * 10 + (c.toNat - '0'.toNat)) 0

/-- Largest value representable in Rust's `i64`. -/
def i64Max : Nat := 2 ^ 63 - 1

/-- Models `str::parse::<i64>` applied to a nonempty all-digit string (as produced by
capture group 1 of the size regex): it succeeds exactly when the value fits in a
signed 64-bit integer, and overflow is a parse failure. -/
def parseI64 (l : List Char) : Option Int :=
  if digitsVal l ≤ i64Max then some (Int.ofNat (digitsVal l)) else none

/-- The five suffixes accepted by the size grammar `^(\d+)([KMGTP]iB)?$`. -/
def sizeSuffixes : List String := ["KiB", "MiB", "GiB", "TiB", "PiB"]

/-- Whether `suf` is a suffix of `l`. -/
def hasSuffix (l suf : List Char) : Bool :=
  decide (suf.length ≤ l.length) && l.drop (l.length - suf.length) == suf

/-- The captures of the size regex `^(\d+)([KMGTP]iB)?$` used by `parse_size`:
`some (digits, suffix)` when the string matches the grammar, where `digits` is capture
group 1 (nonempty, all decimal digits) and `suffix` is capture group 2 (`""` when the
optional suffix is absent); `none` when the string does not match. -/
def sizeCaptures (s : String) : Option (String × String) :=
  match sizeSuffixes.find? (fun suf => hasSuffix s.data suf.data) with
  | some suf =>
    let pre := s.data.take (s.data.length - suf.data.length)
    if pre ≠ [] ∧ pre.all Char.isDigit then some (String.mk pre, suf) else none
  | none =>
    if s.data ≠ [] ∧ s.data.all Char.isDigit then some (s, "") else none

/-- `parse_size` from `src/replacer/util.rs` lines 52-81 (the identical function appears
as `Cli::parse_size` in `src/main.rs` lines 167-196).  Faithful to the source: the
test `captures.len() > 3` is never true (the regex has two groups, so `Captures::len()`
is always 3), hence `magnitude_str` is always `""` and the magnitude is always
`1024 XOR 0 = 1024`; a digit prefix that does not fit in `i64` falls back to
`default_size = 1` via `unwrap_or`. -/
def parse_size (s : String) : Except CliError Int :=
  match sizeCaptures s with
  | some (digits, suf) =>
    let captures_len : Nat := 3
    let magnitude_str : String := if captures_len > 3 then suf else ""
    let magnitude : Int := (magnitude_map.lookup magnitude_str).getD 1
    Except.ok ((parseI64 digits.data).getD 1 * magnitude)
  | none =>
    Except.error ⟨"Warning: Invalid size string (" ++ s ++ "), defaulting to 1MiB"⟩

/-- `Cli::parse_pump_limit` from `src/main.rs` lines 198-204: on any parse failure the
fallback is the Rust expression `1024 ^ 2`, i.e. `1024 XOR 2 = 1026`. -/
def parse_pump_limit (arg : Option String) : Int :=
  match arg with
  | some s => (parse_size s).toOption.getD (Int.ofNat (Nat.xor 1024 2))
  | none => Int.ofNat (Nat.xor 1024 2)

/-- `ScanBuffer` from `src/replacer/scan_buffer.rs` lines 27-34: a fixed-size sliding
window over a byte stream.  The element type `T` abstracts the Rust bound
`T: Copy + From<u8>`. -/
structure ScanBuffer (T : Type) where
  index : Nat
  size : Nat
  scan_size : Nat
  default_value : T
  buffer : List T
deriving Repr

namespace ScanBuffer

/-- `ScanBuffer::new` (lines 40-50): the buffer starts as `size` copies of the default
value, with `index = 0`. -/
def new (size scan_size : Nat) (default_value : T) : ScanBuffer T :=
  { index := 0, size := size, scan_size := scan_size,
    default_value := default_value, buffer := List.replicate size default_value }

/-- Rust's `slice::rotate_left` for `n ≤ l.length`: the first `n` elements move to the
end. -/
def rotate_left (l : List T) (n : Nat) : List T :=
  l.drop n ++ l.take n

/-- `ScanBuffer::shift` (lines 52-78).  The stream interaction is represented by the
outcome of `stream.take(scan_size).read(&mut buffer)`: `none` models a read error
(which the source logs and treats as zero bytes read), `some bytes` models a
successful read of `bytes` (`bytes.length ≤ scan_size` in any real read, and the
remainder of the scratch vector keeps its `b'\0'` fill).  Faithful to the source,
the whole `scan_size`-length scratch vector is converted via `T::from` (modelled by
`ofByte`) and appended, then the buffer is rotated left by `bytes_read` and truncated
to `size`. -/
def shift (sb : ScanBuffer T) (ofByte : Nat → T) (readResult : Option (List Nat)) :
    ScanBuffer T × Nat :=
  match readResult with
  | none => (sb, 0)
  | some bytes =>
    let bytes_read := bytes.length
    if 0 < bytes_read then
      let scratch : List Nat := bytes ++ List.replicate (sb.scan_size - bytes_read) 0
      let data : List T := scratch.map ofByte
      let appended := sb.buffer ++ data
      let rotated := rotate_left appended bytes_read
      ({ sb with buffer := rotated.take sb.size }, bytes_read)
    else (sb, 0)

/-- `ScanBuffer::process` (lines 80-82): a read-only view of the current contents. -/
def process (sb : ScanBuffer T) (func : List T → R) : R :=
  func sb.buffer

/-- A streaming session: fold `shift` over a list of read outcomes, keeping the buffer. -/
def runShifts (sb : ScanBuffer T) (ofByte : Nat → T) (reads : List (Option (List Nat))) :
    ScanBuffer T :=
  reads.foldl (fun b r => (b.shift ofByte r).1) sb

end ScanBuffer

/-! ### Model of the external regex engine

The `regex` crate is an external collaborator, not code of this repository, so the
engine core is modelled from the spec: regular expressions over `Char` (Mathlib's
`RegularExpression`, whose `rmatch` is a verified executable matcher), a compile step
for a subset of the pattern grammar (literals, backslash escapes, alternation `|`,
repetition `*` `+` `?`; grouping and character classes are outside the modelled
subset), and global non-overlapping leftmost substitution. -/

/-- Regular expressions over characters, the model of a compiled `regex::Regex`. -/
abbrev RE := RegularExpression Char

/-- Modelled from the spec: the set of characters that `regex::escape` (the engine's
literal-escaping routine) escapes, i.e. the regex metacharacters. -/
def isMetaChar (c : Char) : Bool :=
  c ∈ ['\\', '.', '+', '*', '?', '(', ')', '|', '[', ']', '{', '}',
       '^', '$', '#', '&', '-', '~']

/-- Modelled from the spec: `regex::escape` applied to one character — metacharacters
get a preceding backslash, everything else is kept verbatim. -/
def escapeChar (c : Char) : List Char :=
  if isMetaChar c then ['\\', c] else [c]

/-- Modelled from the spec: `regex::escape`, used by `Cli::escape_pattern`
(`src/main.rs` lines 162-165). -/
def escape (p : List Char) : List Char :=
  p.flatMap escapeChar

/-- One atom of the modelled pattern grammar: a backslash escape denotes the escaped
character literally; a bare metacharacter is not an atom; any other character denotes
itself. -/
def parseAtom (input : List Char) : Option (RE × List Char) :=
  match input with
  | [] => none
  | c :: rest =>
    if c = '\\' then
      match rest with
      | c2 :: rest2 => some (RegularExpression.char c2, rest2)
      | [] => none
    else if isMetaChar c then none
    else some (RegularExpression.char c, rest)

/-- Apply a repetition operator (`*`, `+`, `?`) following an atom, when present. -/
def applyRep (r : RE) (input : List Char) : RE × List Char :=
  match input with
  | [] => (r, [])
  | c :: rest =>
    if c = '*' then (RegularExpression.star r, rest)
    else if c = '+' then (RegularExpression.comp r (RegularExpression.star r), rest)
    else if c = '?' then (RegularExpression.plus r RegularExpression.epsilon, rest)
    else (r, c :: rest)

/-- A concatenation of atoms, stopping at `|` or end of input; `acc` is the regex
parsed so far (left-nested, starting from `epsilon`). -/
def parseSeq : Nat → RE → List Char → Option (RE × List Char)
  | _, acc, [] => some (acc, [])
  | 0, _, _ :: _ => none
  | fuel + 1, acc, c :: rest =>
    if c = '|' then some (acc, c :: rest)
    else
      match parseAtom (c :: rest) with
      | none => none
      | some (a, rest1) =>
        let step := applyRep a rest1
        parseSeq fuel (RegularExpression.comp acc step.1) step.2

/-- Alternation: `|`-separated concatenations. -/
def parseAlt : Nat → List Char → Option (RE × List Char)
  | 0, _ => none
  | fuel + 1, input =>
    match parseSeq (fuel + 1) RegularExpression.epsilon input with
    | none => none
    | some (r, rest) =>
      match rest with
      | [] => some (r, [])
      | c :: rest1 =>
        if c = '|' then
          match parseAlt fuel rest1 with
          | some (r2, rest2) => some (RegularExpression.plus r r2, rest2)
          | none => none
        else some (r, c :: rest1)

/-- Modelled from the spec: the compile step of `Regex::new` — parse the whole pattern
string or fail. -/
def parseRE (s : List Char) : Option RE :=
  match parseAlt (s.length + 1) s with
  | some (r, []) => some r
  | _ => none

/-- `Regex::new` as used by `Cli::process_text`: compile failure carries the engine's
diagnostic into a `CliError` (via the `From<regex::Error>` conversion in
`src/replacer/error.rs`). -/
def Regex.new (pattern : String) : Except CliError RE :=
  match parseRE pattern.data with
  | some r => Except.ok r
  | none => Except.error ⟨"regex parse error: " ++ pattern⟩

/-- The regex denoting the string `p` literally: left-nested concatenation of its
characters. -/
def litSeq (p : List Char) : RE :=
  p.foldl (fun a c => RegularExpression.comp a (RegularExpression.char c)) RegularExpression.epsilon

/-- Length of the longest match of `r` at the start of `s` (`none` when no prefix of
`s`, not even the empty one, matches). -/
def matchLen (r : RE) (s : List Char) : Option Nat :=
  (List.range (s.length + 1)).reverse.find? (fun n => r.rmatch (s.take n))

/-- Modelled from the spec: global non-overlapping left-to-right substitution, the
behaviour of `Regex::replace_all`.  At each position the longest match is replaced
and scanning resumes after it; an empty match emits the replacement and advances one
character.  Capture-group references in the replacement are not modelled (no claim
depends on them). -/
def replaceAllFuel : Nat → RE → List Char → List Char → List Char
  | _, r, repl, [] => if r.rmatch [] then repl else []
  | 0, _, _, l => l
  | fuel + 1, r, repl, c :: rest =>
    match matchLen r (c :: rest) with
    | none => c :: replaceAllFuel fuel r repl rest
    | some 0 => repl ++ c :: replaceAllFuel fuel r repl rest
    | some (n + 1) => repl ++ replaceAllFuel fuel r repl (rest.drop n)

/-- The substitution at the top level: every step consumes at least one input
character, so `text.length` fuel always suffices (the fuel-exhaustion equation is
unreachable). -/
def replaceAll (r : RE) (repl text : List Char) : List Char :=
  replaceAllFuel text.length r repl text

/-! ### CLI orchestration (`src/main.rs`)

File contents, standard streams and the process-wide verbose flag are represented by
an explicit `World` record threaded through the functions that the Rust code writes
as side effects. -/

/-- The observable state: a file system (`none` = the path cannot be opened), the
text available on standard input, and the bytes written so far to the standard
output and error streams. -/
structure World where
  fs : String → Option String
  stdin : String
  stdout : String
  stderr : String

/-- The message of the `io::Error` produced by failing to open a file.  Modelled from
the spec: `IoError` carries the underlying OS message; the OS message for an
unopenable path, which does not include the path itself. -/
def ioErrorMsg : String := "No such file or directory (os error 2)"

/-- `read_file` from `src/replacer/util.rs` lines 32-38: the whole file content,
verbatim, or the OS error converted into a `CliError`. -/
def read_file (fs : String → Option String) (path : String) : Except CliError String :=
  match fs path with
  | some content => Except.ok content
  | none => Except.error ⟨ioErrorMsg⟩

/-- `write_file` from `src/replacer/util.rs` lines 40-50: `OpenOptions` with
`write(true).truncate(true)` and no `create`, so a missing path is an open error;
otherwise the file's content is replaced. -/
def write_file (fs : String → Option String) (path content : String) :
    Except CliError (String → Option String) :=
  match fs path with
  | some _ => Except.ok (fun p => if p = path then some content else fs p)
  | none => Except.error ⟨ioErrorMsg⟩

/-- `error!` / `errorln!` output (`src/replacer/error.rs`): append to stderr. -/
def errPrint (st : World) (msg : String) : World :=
  { st with stderr := st.stderr ++ msg }

/-- `debug!` / `debugln!` output: append to stderr only when the process-wide verbose
flag (set from `--verbose` by `run`) is on. -/
def dbgPrint (dbg : Bool) (st : World) (msg : String) : World :=
  if dbg then errPrint st msg else st

/-- `print!` output: append to stdout. -/
def outPrint (st : World) (msg : String) : World :=
  { st with stdout := st.stdout ++ msg }

/-- The `Cli` record from `src/main.rs` lines 34-43. -/
structure Cli where
  inplace : Bool
  pattern : Except CliError String
  replacement : Except CliError String
  escape : Bool
  pump_limit : Int
  verbose : Bool
  files : Option (List String)

/-- `Cli::get_arg_or_file` from `src/main.rs` lines 135-147: a literal argument wins
verbatim; otherwise a file path is read fully; otherwise the missing-value error
naming the argument. -/
def get_arg_or_file (fs : String → Option String) (name : String)
    (arg : Option String) (path : Option String) : Except CliError String :=
  match arg with
  | some a => Except.ok a
  | none =>
    match path with
    | some p => read_file fs p
    | none => Except.error ⟨"No " ++ name ++ " was supplied"⟩

/-- `Cli::process_text` from `src/main.rs` lines 149-160: compile the pattern (every
call compiles anew), then substitute globally. -/
def process_text (pattern replacement text : String) : Except CliError String :=
  match Regex.new pattern with
  | Except.ok r => Except.ok (String.mk (replaceAll r replacement.data text.data))
  | Except.error e => Except.error e

/-- `Cli::escape_pattern` from `src/main.rs` lines 162-165: print the escaped pattern
to stdout. -/
def escape_pattern (st : World) (pattern : String) : World :=
  outPrint st (String.mk (escape pattern.data))

/-- The body of the per-file loop of `Cli::process_files` (`src/main.rs` lines
212-239): `debug!("Processing: {} => ", path)`, then
`read_file(..).and_then(process-and-write).or_else(log).ok()` — any error is logged
(verbose only) and swallowed. -/
def process_file_step (inplace dbg : Bool) (pattern replacement : String)
    (st : World) (path : String) : World :=
  let st1 := dbgPrint dbg st ("Processing: " ++ path ++ " => ")
  match read_file st1.fs path with
  | Except.error e => dbgPrint dbg st1 ("failed: (" ++ e.msg ++ ")\n")
  | Except.ok text =>
    match process_text pattern replacement text with
    | Except.ok result =>
      let st2 := dbgPrint dbg st1 "replaced\n"
      match inplace with
      | true =>
        match write_file st2.fs path result with
        | Except.ok fs2 => { st2 with fs := fs2 }
        | Except.error e => dbgPrint dbg st2 ("failed: (" ++ e.msg ++ ")\n")
      | false => outPrint st2 result
    | Except.error e =>
      let st2 := dbgPrint dbg st1 "skipped\n"
      dbgPrint dbg st2 ("failed: (" ++ e.msg ++ ")\n")

/-- `Cli::process_files` from `src/main.rs` lines 206-241: the loop over the paths in
argument order; per-file errors never escape (`.ok()`), and the function always
returns `Ok(())`. -/
def process_files (inplace dbg : Bool) (pattern replacement : String)
    (files : List String) (st : World) : World × Except CliError Unit :=
  (files.foldl (process_file_step inplace dbg pattern replacement) st, Except.ok ())

/-- `Cli::process_stdin` from `src/main.rs` lines 243-257 (reading stdin itself is
modelled as always succeeding; the claims do not exercise a stdin read error). -/
def process_stdin (dbg : Bool) (pattern replacement : String) (st : World) :
    World × Except CliError Unit :=
  let st1 := dbgPrint dbg st "Reading stdin\n"
  match process_text pattern replacement st1.stdin with
  | Except.ok result => (outPrint st1 result, Except.ok ())
  | Except.error e => (st1, Except.error e)

/-- `Cli::process_pattern` from `src/main.rs` lines 259-264. -/
def process_pattern (cli : Cli) (pattern replacement : String) (st : World) :
    World × Except CliError Unit :=
  match cli.files with
  | some files => process_files cli.inplace cli.verbose pattern replacement files st
  | none => process_stdin cli.verbose pattern replacement st

/-- `Cli::run` from `src/main.rs` lines 266-278. -/
def Cli.run (cli : Cli) (st : World) : World × Except CliError Unit :=
  match cli.pattern with
  | Except.ok pattern =>
    match cli.escape with
    | true => (escape_pattern st pattern, Except.ok ())
    | false =>
      match cli.replacement with
      | Except.ok replacement => process_pattern cli pattern replacement st
      | Except.error e => (st, Except.error e)
  | Except.error e => (st, Except.error e)

/-- `main` from `src/main.rs` lines 281-289: on `Err` the error is printed to stderr
and the process exits with status 1, otherwise it exits with status 0. -/
def main_run (cli : Cli) (st : World) : World × Nat :=
  match cli.run st with
  | (st1, Except.ok _) => (st1, 0)
  | (st1, Except.error e) => (errPrint st1 (e.msg ++ "\n"), 1)

/-! ## Theorems -/

/-- C1: the claim states that for every size string matching `^(\d+)([KMGTP]iB)?$` the
parser returns `numeric_prefix * 1024^magnitude_index` ("1MiB" → 1048576, "2KiB" →
2048, "500" → 500).  The code disagrees: `Captures::len()` is always 3, so the suffix
branch never executes and the magnitude is always `1024 ^ 0` — Rust XOR, i.e. 1024.
Hence "1MiB" yields 1024, "500" yields 512000 (and "2KiB" yields 2048 only by
coincidence, as 2·1024 = 2048).  This theorem evaluates the embedded source at the
failing inputs. -/
theorem parse_size_divergence :
    parse_size "1MiB" = Except.ok 1024 ∧
    parse_size "500" = Except.ok 512000 ∧
    parse_size "2KiB" = Except.ok 2048 ∧
    parse_size "1MiB" ≠ Except.ok 1048576 ∧
    parse_size "500" ≠ Except.ok 500 := by
  refine ⟨rfl, rfl, rfl, ?_, ?_⟩
  · intro h
    rw [show parse_size "1MiB" = Except.ok 1024 from rfl] at h
    injection h with h1
    exact absurd h1 (by decide)
  · intro h
    rw [show parse_size "500" = Except.ok 512000 from rfl] at h
    injection h with h1
    exact absurd h1 (by decide)

/-- C4: the claim states that for an invalid size string such as "5XB" the parser
fails (true) and the caller's fallback buffer capacity is 1048576 bytes (false: the
fallback in `Cli::parse_pump_limit` is the Rust expression `1024 ^ 2`, i.e.
`1024 XOR 2 = 1026`, even though the emitted diagnostic says "defaulting to 1MiB").
This theorem evaluates the embedded source at the failing input. -/
theorem parse_pump_limit_divergence :
    parse_size "5XB"
        = Except.error ⟨"Warning: Invalid size string (5XB), defaulting to 1MiB"⟩ ∧
    parse_pump_limit (some "5XB") = 1026 ∧
    parse_pump_limit (some "5XB") ≠ 1048576 := by
  refine ⟨rfl, rfl, ?_⟩
  intro h
  rw [show parse_pump_limit (some "5XB") = 1026 from rfl] at h
  exact absurd h (by decide)

/-- C10: for a size string matching the grammar whose digit prefix does not fit in a
signed 64-bit integer, `parse_size` does not fail: `size.parse::<i64>().unwrap_or(1)`
silently replaces the prefix by 1, so the result is `Ok(1 * magnitude)` — and the
magnitude the code selects is always 1024 (the `""` entry of the XOR table, since the
`captures.len() > 3` branch is dead), so the result is the magnitude value alone. -/
theorem parse_size_overflow_default (s d suf : String)
    (hc : sizeCaptures s = some (d, suf)) (hbig : i64Max < digitsVal d.data) :
    parse_size s = Except.ok 1024 := by
  unfold parse_size
  rw [hc]
  have h1 : parseI64 d.data = none := by
    unfold parseI64
    rw [if_neg (not_le.mpr hbig)]
  simp [h1]
  rfl

/-- Witness for C10 at the concrete input "99999999999999999999" (20 nines, above
`i64::MAX`). -/
theorem parse_size_overflow_default_witness :
    parse_size "99999999999999999999" = Except.ok 1024 :=
  parse_size_overflow_default "99999999999999999999" "99999999999999999999" "" rfl
    (by decide)

/-- The list computation at the heart of `ScanBuffer::shift`: appending new data,
rotating left by the number of bytes read and truncating to the window size equals
dropping the oldest elements and appending the new ones at the tail. -/
theorem take_rotate_eq {T : Type} (B data : List T) (N size : Nat)
    (hB : B.length = size) (hN : N ≤ size) (hd : N ≤ data.length) :
    ((B ++ data).drop N ++ (B ++ data).take N).take size = B.drop N ++ data.take N := by
  have h1 : (B ++ data).drop N = B.drop N ++ data := by
    rw [List.drop_append_eq_append_drop, hB, Nat.sub_eq_zero_of_le hN, List.drop_zero]
  have hlen1 : (B.drop N ++ data).length = size - N + data.length := by
    simp [hB]
  have e1 : ((B.drop N ++ data) ++ (B ++ data).take N).take size
      = (B.drop N ++ data).take size
          ++ ((B ++ data).take N).take (size - (B.drop N ++ data).length) :=
    List.take_append_eq_append_take
  rw [h1, e1]
  have h2 : size - (B.drop N ++ data).length = 0 := by
    rw [hlen1]; omega
  rw [h2, List.take_zero, List.append_nil]
  have e2 : (B.drop N ++ data).take size
      = (B.drop N).take size ++ data.take (size - (B.drop N).length) :=
    List.take_append_eq_append_take
  rw [e2]
  have h3 : (B.drop N).length = size - N := by simp [hB]
  rw [List.take_of_length_le (by rw [h3]; omega), h3]
  have h4 : size - (size - N) = N := by omega
  rw [h4]

/-- C3: `ScanBuffer::shift` against a read outcome.  When `N > 0` bytes are read
(`N ≤ scan_size ≤ size`, short reads allowed), the new buffer is the old contents
with the oldest `N` elements discarded from the head and the `N` new elements
(converted via `T::from`, in read order) appended at the tail, the length staying
`size`, and `N` is returned; when zero bytes are read or the read errors, the
operation returns 0 and the buffer is unchanged. -/
theorem scan_buffer_shift_spec {T : Type} (ofByte : Nat → T) (sb : ScanBuffer T)
    (bytes : List Nat) (hlen : sb.buffer.length = sb.size)
    (hscan : sb.scan_size ≤ sb.size) (hb : bytes.length ≤ sb.scan_size) :
    (0 < bytes.length →
      (sb.shift ofByte (some bytes)).1.buffer
          = sb.buffer.drop bytes.length ++ bytes.map ofByte
        ∧ (sb.shift ofByte (some bytes)).1.buffer.length = sb.size
        ∧ (sb.shift ofByte (some bytes)).2 = bytes.length) ∧
    sb.shift ofByte (some []) = (sb, 0) ∧
    sb.shift ofByte none = (sb, 0) := by
  refine ⟨?_, by simp [ScanBuffer.shift], rfl⟩
  intro hpos
  have hN : bytes.length ≤ sb.size := le_trans hb hscan
  have hmain : (sb.shift ofByte (some bytes)).1.buffer
      = sb.buffer.drop bytes.length ++ bytes.map ofByte := by
    simp only [ScanBuffer.shift, if_pos hpos, ScanBuffer.rotate_left]
    rw [take_rotate_eq _ _ _ _ hlen hN (by simp)]
    congr 1
    rw [List.map_append, List.take_append_eq_append_take,
      List.take_of_length_le (by simp), List.length_map, Nat.sub_self, List.take_zero,
      List.append_nil]
  refine ⟨hmain, ?_, ?_⟩
  · rw [hmain]
    simp [hlen]
    omega
  · simp [ScanBuffer.shift, if_pos hpos]

/-- Witness for C3: a window of size 4 (scan size 2, default 0) after reading the two
bytes 7, 8; and an errored read leaving the buffer unchanged. -/
theorem scan_buffer_shift_spec_witness :
    ((ScanBuffer.new 4 2 (0 : Nat)).shift id (some [7, 8])).1.buffer
        = (ScanBuffer.new 4 2 (0 : Nat)).buffer.drop 2 ++ [7, 8].map id ∧
    (ScanBuffer.new 4 2 (0 : Nat)).shift id none = (ScanBuffer.new 4 2 0, 0) := by
  have h := scan_buffer_shift_spec id (ScanBuffer.new 4 2 (0 : Nat)) [7, 8]
    (by decide) (by decide) (by decide)
  exact ⟨(h.1 (by decide)).1, h.2.2⟩

/-- One `shift` keeps the length equal to `size`, whatever was read, and never touches
the `size` and `scan_size` fields. -/
theorem shift_preserves_length {T : Type} (ofByte : Nat → T) (sb : ScanBuffer T)
    (r : Option (List Nat)) (h : sb.buffer.length = sb.size) :
    (sb.shift ofByte r).1.buffer.length = (sb.shift ofByte r).1.size
      ∧ (sb.shift ofByte r).1.size = sb.size := by
  have hsize : (sb.shift ofByte r).1.size = sb.size := by
    match r with
    | none => rfl
    | some bytes =>
      by_cases hpos : 0 < bytes.length
      · simp [ScanBuffer.shift, if_pos hpos]
      · simp [ScanBuffer.shift, if_neg hpos]
  refine ⟨?_, hsize⟩
  match r with
  | none => exact h
  | some bytes =>
    by_cases hpos : 0 < bytes.length
    · simp only [ScanBuffer.shift, if_pos hpos, ScanBuffer.rotate_left]
      simp [h]
      omega
    · simp only [ScanBuffer.shift, if_neg hpos]
      exact h

/-- C7: the scan-buffer invariant.  Construction fills all `size` slots with the
default value; after any sequence of fill operations the buffer length is still
exactly `size`; and `process` is a read-only view returning its function applied to
the current contents. -/
theorem scan_buffer_length_invariant {T : Type} (ofByte : Nat → T)
    (size scan_size : Nat) (d : T) (reads : List (Option (List Nat))) :
    (ScanBuffer.new size scan_size d).buffer = List.replicate size d ∧
    ((ScanBuffer.new size scan_size d).runShifts ofByte reads).buffer.length = size ∧
    ∀ (R : Type) (f : List T → R),
      ((ScanBuffer.new size scan_size d).runShifts ofByte reads).process f
        = f ((ScanBuffer.new size scan_size d).runShifts ofByte reads).buffer := by
  refine ⟨rfl, ?_, fun R f => rfl⟩
  have key : ∀ (rs : List (Option (List Nat))) (sb : ScanBuffer T),
      sb.buffer.length = sb.size →
      (sb.runShifts ofByte rs).buffer.length = (sb.runShifts ofByte rs).size
        ∧ (sb.runShifts ofByte rs).size = sb.size := by
    intro rs
    induction rs with
    | nil => intro sb h; exact ⟨h, rfl⟩
    | cons r rs ih =>
      intro sb h
      have h1 := shift_preserves_length ofByte sb r h
      have h2 := ih (sb.shift ofByte r).1 h1.1
      exact ⟨h2.1, h2.2.trans h1.2⟩
  have h := key reads (ScanBuffer.new size scan_size d) (by simp [ScanBuffer.new])
  rw [h.1, h.2]
  rfl

/-- The OS read error is never mistaken for the missing-value error, whatever the
argument name: the two messages end in different characters. -/
theorem io_ne_missing (name : String) :
    (⟨ioErrorMsg⟩ : CliError) ≠ ⟨"No " ++ name ++ " was supplied"⟩ := by
  intro h
  have hmsg : ioErrorMsg = "No " ++ name ++ " was supplied" := congrArg CliError.msg h
  have hdata := congrArg (fun s : String => s.data.getLast?) hmsg
  simp only [String.data_append] at hdata
  rw [List.getLast?_append_of_ne_nil _ (by decide : (" was supplied" : String).data ≠ [])]
    at hdata
  exact absurd hdata (by decide)

/-- C6: `Cli::get_arg_or_file` resolution.  A present literal argument is returned
verbatim (including the empty string); otherwise a present file path is read and its
entire contents returned untrimmed; the missing-value error naming the argument is
produced exactly when neither is present (a failing file read surfaces as the I/O
error instead). -/
theorem get_arg_or_file_spec (fs : String → Option String) (name : String)
    (arg path : Option String) :
    (∀ a, arg = some a → get_arg_or_file fs name arg path = Except.ok a) ∧
    (arg = none → ∀ p c, path = some p → fs p = some c →
        get_arg_or_file fs name arg path = Except.ok c) ∧
    (arg = none → ∀ p, path = some p → fs p = none →
        get_arg_or_file fs name arg path = Except.error ⟨ioErrorMsg⟩) ∧
    (get_arg_or_file fs name arg path = Except.error ⟨"No " ++ name ++ " was supplied"⟩
        ↔ arg = none ∧ path = none) := by
  refine ⟨?_, ?_, ?_, ?_, ?_⟩
  · intro a ha
    subst ha
    rfl
  · intro ha p c hp hc
    subst ha; subst hp
    simp [get_arg_or_file, read_file, hc]
  · intro ha p hp hc
    subst ha; subst hp
    simp [get_arg_or_file, read_file, hc]
  · intro h
    match harg : arg with
    | some a => exact absurd h (by simp [get_arg_or_file])
    | none =>
      match hpath : path with
      | some p =>
        simp only [get_arg_or_file, read_file] at h
        match hfs : fs p with
        | some c => rw [hfs] at h; exact absurd h (by simp)
        | none =>
          rw [hfs] at h
          injection h with h1
          exact absurd h1 (io_ne_missing name)
      | none => exact ⟨rfl, rfl⟩
  · rintro ⟨ha, hp⟩
    subst ha; subst hp
    rfl

/-- Witness for C6: a present literal (even though a file path is also absent and the
file system is empty) resolves verbatim; with both absent, the missing-value error
names the argument. -/
theorem get_arg_or_file_spec_witness :
    get_arg_or_file (fun _ => none) "pattern" (some "x") none = Except.ok "x" ∧
    get_arg_or_file (fun _ => none) "pattern" none none
      = Except.error ⟨"No pattern was supplied"⟩ :=
  ⟨(get_arg_or_file_spec (fun _ => none) "pattern" (some "x") none).1 "x" rfl,
   ((get_arg_or_file_spec (fun _ => none) "pattern" none none).2.2.2.2 ⟨rfl, rfl⟩)⟩

/-- C2 counterexample: a file-mode run in which the only file cannot be read — a
per-file processing step fails — yet the process exits with status 0, because
`Cli::process_files` swallows every per-file error (`.ok()`) and always returns
`Ok(())`.  The claim's "non-zero whenever at least one per-file processing step
fails" is therefore false on the code. -/
theorem process_files_exit_zero_on_file_failure :
    read_file (fun _ => none) "f" = Except.error ⟨ioErrorMsg⟩ ∧
    (main_run ⟨false, Except.ok "x", Except.ok "y", false, 1026, false, some ["f"]⟩
        ⟨fun _ => none, "", "", ""⟩).2 = 0 :=
  ⟨rfl, rfl⟩

/-- C2 amended: in file mode the exit status is 0 exactly when pattern resolution
succeeds and (unless escape mode is on) replacement resolution succeeds; per-file
failures — including read errors, per-file pattern-compile errors and in-place write
errors — never make the exit status non-zero, because `process_files` always returns
`Ok(())`. -/
theorem main_exit_status_amended (cli : Cli) (st : World) (files : List String)
    (hf : cli.files = some files) :
    (main_run cli st).2 = 0
      ↔ (∃ p, cli.pattern = Except.ok p)
          ∧ (cli.escape = true ∨ ∃ r, cli.replacement = Except.ok r) := by
  unfold main_run Cli.run
  match hp : cli.pattern with
  | Except.error e =>
    constructor
    · intro h
      exact absurd h (by simp)
    · rintro ⟨⟨p, hpp⟩, _⟩
      exact absurd hpp (by simp)
  | Except.ok p =>
    match he : cli.escape with
    | true =>
      exact iff_of_true rfl ⟨⟨p, rfl⟩, Or.inl rfl⟩
    | false =>
      match hr : cli.replacement with
      | Except.error e =>
        constructor
        · intro h
          exact absurd h (by simp)
        · rintro ⟨_, hor⟩
          rcases hor with hesc | ⟨r, hrr⟩
          · exact absurd hesc (by simp)
          · exact absurd hrr (by simp)
      | Except.ok r =>
        unfold process_pattern
        rw [hf]
        exact iff_of_true rfl ⟨⟨p, rfl⟩, Or.inr ⟨r, rfl⟩⟩

/-- Witness for C2 (amended): a successful single-file run exits with status 0. -/
theorem main_exit_status_amended_witness :
    (main_run ⟨false, Except.ok "x", Except.ok "y", false, 1026, false, some ["g"]⟩
        ⟨fun p => if p = "g" then some "hello" else none, "", "", ""⟩).2 = 0 :=
  (main_exit_status_amended
      ⟨false, Except.ok "x", Except.ok "y", false, 1026, false, some ["g"]⟩
      ⟨fun p => if p = "g" then some "hello" else none, "", "", ""⟩ ["g"] rfl).mpr
    ⟨⟨"x", rfl⟩, Or.inr ⟨"y", rfl⟩⟩

/-- When no prefix of `s` (not even the empty one) matches `r`, `matchLen` finds
nothing. -/
theorem matchLen_eq_none (r : RE) (s : List Char)
    (h : ∀ n, r.rmatch (s.take n) = false) : matchLen r s = none := by
  unfold matchLen
  apply List.find?_eq_none.mpr
  intro n _
  simp [h n]

/-- If `r` matches no take-of-drop of `l`, the substitution leaves `l` unchanged,
whatever the fuel. -/
theorem replaceAllFuel_nomatch (r : RE) (repl : List Char) :
    ∀ (l : List Char) (fuel : Nat),
      (∀ i n, r.rmatch ((l.drop i).take n) = false) →
      replaceAllFuel fuel r repl l = l := by
  intro l
  induction l with
  | nil =>
    intro fuel h
    have h0 : r.rmatch [] = false := h 0 0
    simp [replaceAllFuel, h0]
  | cons c rest ih =>
    intro fuel h
    match fuel with
    | 0 => rfl
    | fuel + 1 =>
      have hml : matchLen r (c :: rest) = none := by
        apply matchLen_eq_none
        intro n
        exact h 0 n
      simp only [replaceAllFuel, hml]
      rw [ih fuel (fun i n => h (i + 1) n)]

/-- Checking all take-of-drops with both indices bounded by the length suffices:
`drop` and `take` saturate beyond the length. -/
theorem nomatch_of_bounded (r : RE) (l : List Char)
    (h : ∀ i ≤ l.length, ∀ n ≤ l.length, r.rmatch ((l.drop i).take n) = false) :
    ∀ i n, r.rmatch ((l.drop i).take n) = false := by
  intro i n
  by_cases hi : i ≤ l.length
  · by_cases hn : n ≤ l.length
    · exact h i hi n hn
    · have hlen : (l.drop i).length ≤ l.length := by
        simp
      have h1 : (l.drop i).take n = (l.drop i).take l.length := by
        rw [List.take_of_length_le (le_trans hlen (le_of_lt (lt_of_not_le hn))),
          List.take_of_length_le hlen]
      rw [h1]
      exact h i hi l.length le_rfl
  · have h1 : l.drop i = [] := List.drop_eq_nil_of_le (le_of_lt (lt_of_not_le hi))
    have h2 : l.drop l.length = [] := List.drop_eq_nil_of_le le_rfl
    have h3 := h l.length le_rfl 0 (Nat.zero_le _)
    rw [h2] at h3
    rw [h1]
    simpa using h3

/-- C8: if the pattern compiles and matches no substring of the text (every substring
is a take-of-drop with bounded indices), `Cli::process_text` returns the text
unchanged. -/
theorem process_text_nomatch_id (pattern replacement text : String)
    (r : RE) (hc : Regex.new pattern = Except.ok r)
    (h : ∀ i ≤ text.data.length, ∀ n ≤ text.data.length,
        r.rmatch ((text.data.drop i).take n) = false) :
    process_text pattern replacement text = Except.ok text := by
  unfold process_text
  rw [hc]
  show Except.ok (String.mk (replaceAll r replacement.data text.data)) = Except.ok text
  unfold replaceAll
  rw [replaceAllFuel_nomatch r replacement.data text.data text.data.length
    (nomatch_of_bounded r text.data h)]

/-- Witness for C8: the pattern "a" compiles and matches nowhere in "b", and the
substitution is the identity there. -/
theorem process_text_nomatch_id_witness :
    process_text "a" "z" "b" = Except.ok "b" :=
  process_text_nomatch_id "a" "z" "b"
    (RegularExpression.comp RegularExpression.epsilon (RegularExpression.char 'a'))
    rfl (by decide)

/-- A non-metacharacter is distinct from every metacharacter. -/
theorem nonmeta_ne (c x : Char) (h : isMetaChar c = false)
    (hx : isMetaChar x = true) : c ≠ x := by
  intro he
  rw [he, hx] at h
  exact Bool.noConfusion h

theorem escape_nil : escape [] = [] := rfl

theorem escape_cons (c : Char) (p : List Char) :
    escape (c :: p) = escapeChar c ++ escape p := by
  simp [escape]

/-- The escaped form of one character always parses back to that character as a
literal atom. -/
theorem parseAtom_escape (c : Char) (t : List Char) :
    parseAtom (escapeChar c ++ t) = some (RegularExpression.char c, t) := by
  cases hm : isMetaChar c with
  | true => simp [escapeChar, hm, parseAtom]
  | false =>
    have h1 : c ≠ '\\' := nonmeta_ne c '\\' hm (by decide)
    simp [escapeChar, hm, parseAtom, h1]

/-- An escaped string never starts with a repetition operator, so `applyRep` is the
identity on it. -/
theorem applyRep_escape (r : RE) (p : List Char) :
    applyRep r (escape p) = (r, escape p) := by
  cases p with
  | nil => rfl
  | cons c p' =>
    rw [escape_cons]
    cases hm : isMetaChar c with
    | true =>
      have hce : escapeChar c = ['\\', c] := by simp [escapeChar, hm]
      rw [hce]
      simp [applyRep]
    | false =>
      have hce : escapeChar c = [c] := by simp [escapeChar, hm]
      rw [hce]
      have h1 : c ≠ '*' := nonmeta_ne c '*' hm (by decide)
      have h2 : c ≠ '+' := nonmeta_ne c '+' hm (by decide)
      have h3 : c ≠ '?' := nonmeta_ne c '?' hm (by decide)
      simp [applyRep, h1, h2, h3]

/-- One step of `parseSeq` on a non-alternation head. -/
theorem parseSeq_step (fuel : Nat) (acc : RE) (c0 : Char) (rest0 : List Char)
    (hc : c0 ≠ '|') (a a2 : RE) (rest1 rest2 : List Char)
    (ha : parseAtom (c0 :: rest0) = some (a, rest1))
    (hr : applyRep a rest1 = (a2, rest2)) :
    parseSeq (fuel + 1) acc (c0 :: rest0)
      = parseSeq fuel (RegularExpression.comp acc a2) rest2 := by
  simp only [parseSeq, if_neg hc, ha, hr]

/-- `parseSeq` on an escaped string consumes it entirely, producing the left-nested
concatenation of its characters on top of the accumulator. -/
theorem parseSeq_escape (p : List Char) : ∀ (fuel : Nat) (acc : RE),
    p.length ≤ fuel →
    parseSeq fuel acc (escape p)
      = some
          (p.foldl (fun a c => RegularExpression.comp a (RegularExpression.char c)) acc,
            []) := by
  induction p with
  | nil =>
    intro fuel acc _
    simp [escape, parseSeq]
  | cons c p' ih =>
    intro fuel acc h
    match fuel with
    | 0 => exact absurd h (by simp)
    | fuel + 1 =>
      rw [escape_cons]
      have hstep : p'.length ≤ fuel := by
        have := Nat.le_of_succ_le_succ (by simpa using h)
        exact this
      cases hm : isMetaChar c with
      | true =>
        have hce : escapeChar c = ['\\', c] := by simp [escapeChar, hm]
        have ha : parseAtom ('\\' :: (c :: escape p'))
            = some (RegularExpression.char c, escape p') := by
          have h0 := parseAtom_escape c (escape p')
          rw [hce] at h0
          exact h0
        rw [hce,
          show (['\\', c] ++ escape p' : List Char) = '\\' :: (c :: escape p') from rfl,
          parseSeq_step fuel acc '\\' (c :: escape p') (by decide)
            (RegularExpression.char c) (RegularExpression.char c) (escape p') (escape p')
            ha (applyRep_escape (RegularExpression.char c) p'),
          ih fuel (RegularExpression.comp acc (RegularExpression.char c)) hstep]
        simp
      | false =>
        have hce : escapeChar c = [c] := by simp [escapeChar, hm]
        have hpipe : c ≠ '|' := nonmeta_ne c '|' hm (by decide)
        have ha : parseAtom (c :: escape p')
            = some (RegularExpression.char c, escape p') := by
          have h0 := parseAtom_escape c (escape p')
          rw [hce] at h0
          exact h0
        rw [hce,
          show ([c] ++ escape p' : List Char) = c :: escape p' from rfl,
          parseSeq_step fuel acc c (escape p') hpipe
            (RegularExpression.char c) (RegularExpression.char c) (escape p') (escape p')
            ha (applyRep_escape (RegularExpression.char c) p'),
          ih fuel (RegularExpression.comp acc (RegularExpression.char c)) hstep]
        simp

/-- `parseAlt` on an escaped string: no unescaped `|` survives escaping, so the whole
string is one concatenation. -/
theorem parseAlt_escape (p : List Char) (fuel : Nat) (h : p.length ≤ fuel + 1) :
    parseAlt (fuel + 1) (escape p) = some (litSeq p, []) := by
  simp only [parseAlt]
  rw [parseSeq_escape p (fuel + 1) RegularExpression.epsilon h]
  rfl

/-- Escaping can only lengthen a string. -/
theorem escape_len_ge (p : List Char) : p.length ≤ (escape p).length := by
  induction p with
  | nil => simp [escape]
  | cons c p' ih =>
    rw [escape_cons, List.length_append]
    have h1 : 1 ≤ (escapeChar c).length := by
      cases hm : isMetaChar c <;> simp [escapeChar, hm]
    simp only [List.length_cons]
    omega

/-- The escaped form of any string compiles, and compiles to the literal
concatenation of the original characters. -/
theorem parseRE_escape (p : List Char) : parseRE (escape p) = some (litSeq p) := by
  unfold parseRE
  rw [parseAlt_escape p (escape p).length
    (le_trans (escape_len_ge p) (Nat.le_succ _))]

/-- Language of a left-nested literal concatenation over an arbitrary seed. -/
theorem foldl_comp_matches (p : List Char) : ∀ (z : RE) (x : List Char),
    x ∈ (p.foldl (fun a c => RegularExpression.comp a (RegularExpression.char c))
          z).matches'
      ↔ ∃ u, u ∈ z.matches' ∧ x = u ++ p := by
  induction p with
  | nil =>
    intro z x
    simp
  | cons c p' ih =>
    intro z x
    rw [List.foldl_cons, ih]
    constructor
    · rintro ⟨u, hu, hx⟩
      rw [RegularExpression.comp_def, RegularExpression.matches'_mul,
        Language.mem_mul] at hu
      obtain ⟨a, ha, b, hb, hab⟩ := hu
      rw [RegularExpression.matches'_char, Set.mem_singleton_iff] at hb
      subst hb
      refine ⟨a, ha, ?_⟩
      rw [hx, ← hab]
      simp
    · rintro ⟨u, hu, hx⟩
      refine ⟨u ++ [c], ?_, ?_⟩
      · rw [RegularExpression.comp_def, RegularExpression.matches'_mul,
          Language.mem_mul]
        exact ⟨u, hu, [c],
          by rw [RegularExpression.matches'_char]; exact Set.mem_singleton _, rfl⟩
      · rw [hx]
        simp

/-- The literal regex for `p` matches exactly the string `p`. -/
theorem litSeq_rmatch (p x : List Char) : (litSeq p).rmatch x = true ↔ x = p := by
  have h1 := RegularExpression.rmatch_iff_matches' (litSeq p) x
  constructor
  · intro h
    have hx := h1.mp h
    obtain ⟨u, hu, hx2⟩ := (foldl_comp_matches p RegularExpression.epsilon x).mp hx
    rw [show (RegularExpression.epsilon : RE).matches' = 1 from rfl,
      Language.mem_one] at hu
    subst hu
    simpa using hx2
  · intro h
    have h2 := RegularExpression.rmatch_iff_matches' (litSeq p) p
    rw [h]
    apply h2.mpr
    apply (foldl_comp_matches p RegularExpression.epsilon p).mpr
    refine ⟨[], ?_, by simp⟩
    rw [show (RegularExpression.epsilon : RE).matches' = 1 from rfl, Language.mem_one]

/-- C9: round-trip of pattern escaping.  Escaping any pattern string `p` and using
the escaped string as a regex pattern (i) compiles, to the literal concatenation of
the characters of `p`, and (ii) that compiled regex matches a substring of any text
`t` (every substring is a take-of-drop) exactly when the substring equals `p` — no
metacharacter of `p` retains special meaning after escaping. -/
theorem escape_pattern_roundtrip (p t : List Char) (i n : Nat) :
    parseRE (escape p) = some (litSeq p) ∧
    ((litSeq p).rmatch ((t.drop i).take n) = true ↔ (t.drop i).take n = p) :=
  ⟨parseRE_escape p, litSeq_rmatch p ((t.drop i).take n)⟩

/-- C5 counterexample: three files, the second unreadable, verbose off (the default).
Both later files are still processed (stdout holds the transformed contents of files
1 and 3), but stderr stays completely empty: the per-file diagnostics in
`Cli::process_files` are `debug!`/`debugln!` calls, which print nothing unless
`--verbose` is set, so the failure of file 2 produces no diagnostic line at all. -/
theorem process_files_no_diagnostic_nonverbose :
    read_file (fun p => if p = "a" then some "x" else if p = "c" then some "w" else none)
        "b" = Except.error ⟨ioErrorMsg⟩ ∧
    (main_run ⟨false, Except.ok "y", Except.ok "z", false, 1026, false,
          some ["a", "b", "c"]⟩
        ⟨fun p => if p = "a" then some "x" else if p = "c" then some "w" else none,
          "", "", ""⟩).1.stderr = "" ∧
    (main_run ⟨false, Except.ok "y", Except.ok "z", false, 1026, false,
          some ["a", "b", "c"]⟩
        ⟨fun p => if p = "a" then some "x" else if p = "c" then some "w" else none,
          "", "", ""⟩).1.stdout = "xw" :=
  ⟨rfl, rfl, rfl⟩

/-- C5 amended: in file mode a failure while processing one file never aborts the
remaining files.  Fully generally — for every flag setting, pattern, replacement,
state and file list split as `pre ++ x :: post`, whatever happens at file `x` (read
error, per-file pattern-compile error, in-place write error or success) — the run
continues with exactly the files after `x`, from the state reached, and the loop
always returns `Ok(())`.  A diagnostic line naming the failing file is produced only
when verbose mode is on: with verbose off, no branch of the per-file step ever
touches stderr; with verbose on, an unreadable file and a pattern-compile failure
each leave a `Processing: <file> => ... failed: (...)` line naming the file, the
file itself being skipped (stdout and the file system untouched). -/
theorem process_files_continue_after_failure (inplace dbg : Bool)
    (pattern repl : String) (pre post : List String) (x : String) (st : World) :
    (process_files inplace dbg pattern repl (pre ++ x :: post) st
        = process_files inplace dbg pattern repl post
            (process_file_step inplace dbg pattern repl
              (process_files inplace dbg pattern repl pre st).1 x)) ∧
    ((process_files inplace dbg pattern repl (pre ++ x :: post) st).2
        = Except.ok ()) ∧
    ((process_file_step inplace false pattern repl st x).stderr = st.stderr) ∧
    (st.fs x = none →
      (process_file_step inplace true pattern repl st x).stderr
          = st.stderr ++ ("Processing: " ++ x ++ " => ")
              ++ ("failed: (" ++ ioErrorMsg ++ ")\n")
        ∧ (process_file_step inplace true pattern repl st x).stdout = st.stdout
        ∧ (process_file_step inplace true pattern repl st x).fs = st.fs) ∧
    (∀ (e : CliError) (text : String),
      Regex.new pattern = Except.error e → st.fs x = some text →
      (process_file_step inplace true pattern repl st x).stderr
          = st.stderr ++ ("Processing: " ++ x ++ " => ") ++ "skipped\n"
              ++ ("failed: (" ++ e.msg ++ ")\n")
        ∧ (process_file_step inplace true pattern repl st x).stdout = st.stdout
        ∧ (process_file_step inplace true pattern repl st x).fs = st.fs) := by
  refine ⟨?_, rfl, ?_, ?_, ?_⟩
  · simp [process_files, List.foldl_append]
  · cases hr : read_file st.fs x with
    | error e => simp [process_file_step, dbgPrint, hr]
    | ok text =>
      cases hp : process_text pattern repl text with
      | error e => simp [process_file_step, dbgPrint, hr, hp]
      | ok result =>
        cases inplace with
        | false => simp [process_file_step, dbgPrint, outPrint, hr, hp]
        | true =>
          cases hw : write_file st.fs x result with
          | ok fs2 => simp [process_file_step, dbgPrint, hr, hp, hw]
          | error e => simp [process_file_step, dbgPrint, hr, hp, hw]
  · intro h
    refine ⟨?_, ?_, ?_⟩ <;>
      simp [process_file_step, dbgPrint, errPrint, read_file, h]
  · intro e text hre hfs
    refine ⟨?_, ?_, ?_⟩ <;>
      simp [process_file_step, dbgPrint, errPrint, read_file, hfs,
        process_text, hre]

/-- Witness for C5 (amended) at concrete inputs: a missing file under verbose
produces the diagnostic line naming it; an uncompilable pattern likewise; with
verbose off the same failing step leaves stderr untouched; and the run on
`["a"] ++ "b" :: ["c"]` with "b" missing equals continuing with `["c"]` after the
failing step. -/
theorem process_files_continue_after_failure_witness :
    (process_file_step false true "y" "z"
        ⟨fun p => if p = "c" then some "w" else none, "", "", ""⟩ "b").stderr
        = "" ++ ("Processing: " ++ "b" ++ " => ")
            ++ ("failed: (" ++ ioErrorMsg ++ ")\n") ∧
    (process_file_step false true "(" "z"
        ⟨fun p => if p = "c" then some "w" else none, "", "", ""⟩ "c").stderr
        = "" ++ ("Processing: " ++ "c" ++ " => ") ++ "skipped\n"
            ++ ("failed: (" ++ "regex parse error: (" ++ ")\n") ∧
    (process_file_step false false "y" "z"
        ⟨fun p => if p = "c" then some "w" else none, "", "", ""⟩ "b").stderr = "" ∧
    process_files false false "y" "z" (["a"] ++ "b" :: ["c"])
        ⟨fun p => if p = "c" then some "w" else none, "", "", ""⟩
      = process_files false false "y" "z" ["c"]
          (process_file_step false false "y" "z"
            (process_files false false "y" "z" ["a"]
              ⟨fun p => if p = "c" then some "w" else none, "", "", ""⟩).1 "b") := by
  refine ⟨?_, ?_, ?_, ?_⟩
  · exact ((process_files_continue_after_failure false true "y" "z" [] [] "b"
      ⟨fun p => if p = "c" then some "w" else none, "", "", ""⟩).2.2.2.1 rfl).1
  · exact ((process_files_continue_after_failure false true "(" "z" [] [] "c"
      ⟨fun p => if p = "c" then some "w" else none, "", "", ""⟩).2.2.2.2
        ⟨"regex parse error: ("⟩ "w" rfl rfl).1
  · exact (process_files_continue_after_failure false false "y" "z" [] [] "b"
      ⟨fun p => if p = "c" then some "w" else none, "", "", ""⟩).2.2.1
  · exact (process_files_continue_after_failure false false "y" "z" ["a"] ["c"] "b"
      ⟨fun p => if p = "c" then some "w" else none, "", "", ""⟩).1

end Replacer
